import Mathlib

/-!
Shallow embedding of the core of the breeze static-site generator
(`breeze/__init__.py` and `breeze/plugins/base.py`) and proofs about it.

Modelling conventions:
* The code targets Python 2 (it indexes exception args as `e[0]`, tries the
  `SimpleHTTPServer` import first, and its comments use the Python 2 print
  statement), so comparisons follow Python 2 mixed-type ordering, in which
  `None` sorts below every number and every number below every string, and
  exception argument tuples support indexing and slicing.
* Python values stored in records are modelled by `PyVal` (nothing beyond
  `None`, integers and strings is needed by the properties under study).
* `dict` / `OrderedDict` objects are modelled as association lists with the
  usual CPython semantics: assignment to an existing key updates it in place,
  assignment to a fresh key appends it, deletion removes the key.  The
  registry (`Breeze.files`) is an `OrderedDict`, so order is significant.
* The external `re.match` and `fnmatch.fnmatch` libraries are out of scope in
  the spec; they are passed in as oracle functions `rmatch pat s` and
  `fmatch s pat`.
* Exceptions are modelled with `Except`; the subclass hook `_run` is modelled
  as a trace of the operations a plugin performs through the framework
  interface (registry item assignment and record-field assignment, the
  `delete` and `mark_matched` helpers, and reads/writes on the merged
  context view).
-/

/-- Python values appearing in file records, contexts and query tests. -/
inductive PyVal where
  | none
  | int (n : Int)
  | str (s : String)
deriving DecidableEq, Repr

/-- Rank of a Python 2 value under mixed-type comparison: `None` sorts below
numbers, numbers below strings (CPython 2 orders distinct types by type name,
`NoneType` being special-cased smallest). -/
def PyVal.typeRank : PyVal → Nat
  | .none => 0
  | .int _ => 1
  | .str _ => 2

/-- Python 2 `<` on the modelled values: same-type values compare by value,
different types by `typeRank`. -/
def pyLt : PyVal → PyVal → Bool
  | .int a, .int b => a < b
  | .str a, .str b => a < b
  | v, w => v.typeRank < w.typeRank

/-- Python 2 `<=`: `a <= b` holds when `a < b` or `a == b` (the order is
total). -/
def pyLe (v w : PyVal) : Bool :=
  pyLt v w || v == w

/-- Association list lookup, the model of `d[k]` / `d.get(k)`. -/
def alGet (k : String) : List (String × α) → Option α
  | [] => Option.none
  | (k', v) :: rest => if k' = k then some v else alGet k rest

/-- Membership test, the model of `k in d`. -/
def alContains (k : String) (l : List (String × α)) : Bool :=
  (alGet k l).isSome

/-- Association list assignment, the model of `d[k] = v` on a CPython dict or
OrderedDict: an existing key keeps its position, a fresh key is appended. -/
def alSet (k : String) (v : α) : List (String × α) → List (String × α)
  | [] => [(k, v)]
  | (k', v') :: rest => if k' = k then (k, v) :: rest else (k', v') :: alSet k v rest

/-- Association list deletion, the model of `del d[k]` on a dict whose keys
are unique (every Python dict). -/
def alDel (k : String) (l : List (String × α)) : List (String × α) :=
  l.filter (fun p => p.1 ≠ k)

/-- The model of `d.update(other)`: assign every pair of `other` in order. -/
def alUpdate (l other : List (String × α)) : List (String × α) :=
  other.foldl (fun acc p => alSet p.1 p.2 acc) l

/-- Keys of an association list, in order. -/
def alKeys (l : List (String × α)) : List String :=
  l.map Prod.fst

/-- A file record: a mapping of attribute name to value. -/
abbrev Record : Type := List (String × PyVal)

/-- The file registry `Breeze.files`: an ordered mapping of file key to
record. -/
abbrev Registry : Type := List (String × Record)

/-- A context mapping (`Breeze.context` and plugin overlays). -/
abbrev Ctx : Type := List (String × PyVal)

/-- Errors surfaced by the query facility: the `ValueError("Invalid op: ...")`
raised by `Breeze._compare` on an unrecognized operator, and the `TypeError`
class of failures the `re` / `fn` operators hit on non-string arguments. -/
inductive QErr where
  | invalidOp (op : String)
  | typeError
deriving DecidableEq, Repr

/-- Embedding of `Breeze._compare(key, op, invert, test, data)`: look the key
up with `data.get(key)` (missing keys become `None`), dispatch on the operator
name, raise on an unknown operator, and finally apply the `not__` inversion to
the truth value of the outcome. -/
def _compare (rmatch fmatch : String → String → Bool)
    (key op : String) (invert : Bool) (test : PyVal) (data : Record) :
    Except QErr Bool :=
  let value := (alGet key data).getD PyVal.none
  let r : Except QErr Bool :=
    if op = "eq" then .ok (value == test)
    else if op = "ne" then .ok (value != test)
    else if op = "lt" then .ok (pyLt value test)
    else if op = "lte" then .ok (pyLe value test)
    else if op = "gt" then .ok (pyLt test value)
    else if op = "gte" then .ok (pyLe test value)
    else if op = "re" then
      match test, value with
      | .str pat, .str s => .ok (rmatch pat s)
      | _, _ => .error .typeError
    else if op = "fn" then
      match value, test with
      | .str s, .str pat => .ok (fmatch s pat)
      | _, _ => .error .typeError
    else .error (.invalidOp op)
  match r with
  | .error e => .error e
  | .ok out => .ok (if invert then !out else out)

/-- Split a character list at the last occurrence of a double underscore,
the model of the rsplit call of `_compare_key` limited to one split. -/
def splitLastDunder : List Char → Option (List Char × List Char)
  | [] => Option.none
  | c :: rest =>
    match splitLastDunder rest with
    | some (a, b) => some (c :: a, b)
    | Option.none =>
      if c = '_' && rest.head? = some '_' then some ([], rest.tail)
      else Option.none

/-- Parse a predicate key the way `Breeze._compare_key` does: strip a leading
`not__` (recording inversion; `key.startswith` and `key[5:]` are spelled out
on the character list so that evaluation is pure), then split field and
operator at the last double underscore when one is present. -/
def parseKey (key : String) : Bool × String × Option String :=
  let cs := key.toList
  let (invert, cs) :=
    if cs.take 5 = ['n', 'o', 't', '_', '_'] then (true, cs.drop 5) else (false, cs)
  match splitLastDunder cs with
  | some (f, op) => (invert, String.mk f, some (String.mk op))
  | Option.none => (invert, String.mk cs, Option.none)

/-- The or-default idiom of `Breeze._compare_key`: a missing operator, and
likewise the falsy empty string, default to `eq`. -/
def effOp : Option String → String
  | Option.none => "eq"
  | some s => if s = "" then "eq" else s

/-- Embedding of `Breeze._compare_key(key, test, data)`. -/
def _compare_key (rmatch fmatch : String → String → Bool)
    (key : String) (test : PyVal) (data : Record) : Except QErr Bool :=
  let p := parseKey key
  _compare rmatch fmatch p.2.1 (effOp p.2.2) p.1 test data

/-- The inner predicate loop of `Breeze.filelist`: test the keyword predicates
in order, stopping at the first failed one (the `break`), propagating the
first error an evaluated predicate raises. -/
def checkKwargs (rmatch fmatch : String → String → Bool)
    (kwargs : List (String × PyVal)) (data : Record) : Except QErr Bool :=
  match kwargs with
  | [] => .ok true
  | (k, t) :: rest =>
    match _compare_key rmatch fmatch k t data with
    | .error e => .error e
    | .ok false => .ok false
    | .ok true => checkKwargs rmatch fmatch rest data

/-- The per-record admission check of `Breeze.filelist`: a record is skipped
when the glob pattern does not match its key or some predicate fails; an
error raised by a predicate aborts the whole evaluation. -/
def keepFile (rmatch fmatch : String → String → Bool)
    (pattern : Option String) (kwargs : List (String × PyVal))
    (fname : String) (fd : Record) : Except QErr Bool :=
  match pattern with
  | some pat => if fmatch fname pat then checkKwargs rmatch fmatch kwargs fd else .ok false
  | Option.none => checkKwargs rmatch fmatch kwargs fd

/-- Embedding of `Breeze.filelist(pattern, **kwargs)`, fully evaluated (the
Python function is a generator; this is the `list(...)` of it, which is how
every caller and the tests consume it). -/
def filelist (rmatch fmatch : String → String → Bool)
    (files : Registry) (pattern : Option String)
    (kwargs : List (String × PyVal)) : Except QErr (List (String × Record)) :=
  match files with
  | [] => .ok []
  | (fname, fd) :: rest =>
    match keepFile rmatch fmatch pattern kwargs fname fd with
    | .error e => .error e
    | .ok true =>
      match filelist rmatch fmatch rest pattern kwargs with
      | .error e => .error e
      | .ok out => .ok ((fname, fd) :: out)
    | .ok false => filelist rmatch fmatch rest pattern kwargs

/-- Embedding of `breeze.plugins.base.MergedDict` as constructed by
`Plugin.run`: an overlay of changes in front of the dictionaries given to the
constructor (`given`, in order, with the last one primary), plus the list of
deletion tombstones.  `dicts = changes :: given`. -/
structure MergedDict where
  changes : Ctx
  given : List Ctx
  deletions : List String
deriving DecidableEq, Repr

/-- Lookup on the merged view (`__getitem__` / `get`): a deleted key reads as
absent, otherwise the first dictionary holding the key wins, the changes
overlay first. -/
def MergedDict.get (md : MergedDict) (k : String) : Option PyVal :=
  if k ∈ md.deletions then Option.none
  else (md.changes :: md.given).findSome? (fun d => alGet k d)

/-- Membership on the merged view (`__contains__`). -/
def MergedDict.contains (md : MergedDict) (k : String) : Bool :=
  if k ∈ md.deletions then false
  else (md.changes :: md.given).any (fun d => alContains k d)

/-- Assignment on the merged view (`__setitem__`): record the change in the
overlay and cancel a pending deletion of the key, if any. -/
def MergedDict.set (md : MergedDict) (k : String) (v : PyVal) : MergedDict :=
  { md with changes := alSet k v md.changes, deletions := md.deletions.erase k }

/-- Deletion on the merged view (`__delitem__`), with the missing key already
checked by the caller: append a tombstone. -/
def MergedDict.del (md : MergedDict) (k : String) : MergedDict :=
  { md with deletions := md.deletions ++ [k] }

/-- Embedding of `MergedDict.merge_changes`: update the primary dictionary
(`dicts[-1]`) with the changes overlay, then remove each deleted key that is
present in it, and return it. -/
def MergedDict.merge_changes (md : MergedDict) : Ctx :=
  let primary := (md.changes :: md.given).getLast (by simp)
  md.deletions.foldl (fun d k => if alContains k d then alDel k d else d)
    (alUpdate primary md.changes)

/-- Mutable per-run state of a plugin while `_run` executes: the live registry
(`self.files`, aliasing the Breeze instance), the merged context view, the
deletion queue, the matched-file list, and the configured `file_data`. -/
structure PluginState where
  files : Registry
  ctx : MergedDict
  queue : List String
  matched : List String
  fileData : Record
deriving Repr

/-- One operation a plugin body (`_run`) performs through the framework
interface: assign a registry entry (`self.files[k] = r`), assign a field of an
existing record (`self.files[k][f] = v`), call `mark_matched`, call `delete`,
or read or write the merged context view (`self.context[k] = v`,
`del self.context[k]`). -/
inductive POp where
  | setFile (k : String) (r : Record)
  | updFile (k : String) (f : String) (v : PyVal)
  | markMatched (k : String)
  | delete (k : String)
  | setContext (k : String) (v : PyVal)
  | delContext (k : String)
deriving DecidableEq, Repr

/-- Effect of a single `_run` operation on the plugin state; an error is a
raised exception.  `mark_matched` appends to the matched list and merges the
configured `file_data` into the record when the key is still present, a no-op
otherwise; `delete` only queues; registry and record assignment follow
CPython dict semantics; a context deletion of a missing key raises. -/
def step (s : PluginState) : POp → Except String PluginState
  | .setFile k r => .ok { s with files := alSet k r s.files }
  | .updFile k f v =>
    match alGet k s.files with
    | some r => .ok { s with files := alSet k (alSet f v r) s.files }
    | Option.none => .error ("KeyError: " ++ k)
  | .markMatched k =>
    match alGet k s.files with
    | some r =>
      .ok { s with matched := s.matched ++ [k],
                   files := alSet k (alUpdate r s.fileData) s.files }
    | Option.none => .ok { s with matched := s.matched ++ [k] }
  | .delete k => .ok { s with queue := s.queue ++ [k] }
  | .setContext k v => .ok { s with ctx := s.ctx.set k v }
  | .delContext k =>
    if s.ctx.contains k then .ok { s with ctx := s.ctx.del k }
    else .error ("KeyError: " ++ k)

/-- Run a trace of `_run` operations, stopping at the first raised exception;
the state reached so far is kept because the Python mutations it stands for
have already happened in place. -/
def runOps (s : PluginState) : List POp → PluginState × Option String
  | [] => (s, Option.none)
  | op :: rest =>
    match step s op with
    | .ok s' => runOps s' rest
    | .error e => (s, some e)

/-- The deletion loop at the end of `Plugin.run`:
`for filename in self.deletion_queue: del self.files[filename]`, where `del`
on a missing key raises `KeyError`, keeping the deletions applied so far. -/
def applyDeletions (files : Registry) : List String → Registry × Option String
  | [] => (files, Option.none)
  | k :: rest =>
    if alContains k files then applyDeletions (alDel k files) rest
    else (files, some k)

/-- A plugin instance as far as the run machinery is concerned: the
constructor payloads (`context=`, `file_data=`), the behavior of its `_run`
body as an operation trace, and the value `_run` returns (`None` or a
replacement registry). -/
structure PluginDef where
  additional_context : Ctx
  file_data : Record
  ops : List POp
  ret : Option Registry
deriving Repr

/-- The live state of a Breeze instance that `run_plugins` threads through
the pipeline: the file registry and the context. -/
structure BreezeState where
  files : Registry
  context : Ctx
deriving DecidableEq, Repr

/-- The per-run plugin state `Plugin.run` sets up before calling `_run`:
fresh queues, the live registry, and the merged context
`MergedDict(self.additional_context, breeze_instance.context)`. -/
def mkRunState (p : PluginDef) (b : BreezeState) : PluginState :=
  { files := b.files
  , ctx := { changes := [], given := [p.additional_context, b.context], deletions := [] }
  , queue := []
  , matched := []
  , fileData := p.file_data }

/-- Embedding of `Plugin.run(breeze_instance)`: run `_run`, then flush the
context overlay into the live context with `merge_changes`, then apply the
queued deletions to the registry.  The returned `BreezeState` reflects the
in-place mutations that have happened even when an exception is raised: a
failure inside `_run` leaves the live context untouched (writes were confined
to the overlay), while a failure in the deletion loop happens after the
context has already been flushed. -/
def Plugin.run (p : PluginDef) (b : BreezeState) :
    BreezeState × Except String (Option Registry) :=
  match runOps (mkRunState p b) p.ops with
  | (s1, some e) => ({ files := s1.files, context := b.context }, .error e)
  | (s1, Option.none) =>
    let ctx' := s1.ctx.merge_changes
    match applyDeletions s1.files s1.queue with
    | (files', some k) => ({ files := files', context := ctx' }, .error ("KeyError: " ++ k))
    | (files', Option.none) => ({ files := files', context := ctx' }, .ok p.ret)

/-- Embedding of `Breeze.run_plugins`: run each plugin in order; when a run
returns a registry (`out is not None`) it becomes `self.files` for the rest
of the pipeline; a raised exception halts the pipeline at once. -/
def run_plugins (b : BreezeState) : List PluginDef → BreezeState × Option String
  | [] => (b, Option.none)
  | p :: rest =>
    match Plugin.run p b with
    | (b', .error e) => (b', some e)
    | (b', .ok out) => run_plugins { files := out.getD b'.files, context := b'.context } rest

/-- A plugin class as the registration machinery sees it: its name, the
`run_once` and `requirable` flags, and the classes returned by `requires()`.
-/
inductive PluginClass where
  | mk (name : String) (run_once : Bool) (requirable : Bool) (requires : List PluginClass)

/-- Name of a plugin class. -/
def PluginClass.name : PluginClass → String
  | .mk n _ _ _ => n

/-- The `run_once` flag of a plugin class. -/
def PluginClass.run_once : PluginClass → Bool
  | .mk _ o _ _ => o

/-- The `requirable` flag of a plugin class. -/
def PluginClass.requirable : PluginClass → Bool
  | .mk _ _ r _ => r

/-- The classes returned by `requires()`. -/
def PluginClass.requires : PluginClass → List PluginClass
  | .mk _ _ _ q => q

mutual
/-- Structural equality of plugin classes, standing for CPython class
identity (`cls in self.once_plugins`). -/
def pcBeq : PluginClass → PluginClass → Bool
  | .mk n1 o1 r1 q1, .mk n2 o2 r2 q2 =>
    n1 == n2 && o1 == o2 && r1 == r2 && pcBeqList q1 q2
/-- Pointwise `pcBeq` on lists of plugin classes. -/
def pcBeqList : List PluginClass → List PluginClass → Bool
  | [], [] => true
  | c :: cs, d :: ds => pcBeq c d && pcBeqList cs ds
  | _, _ => false
end

/-- The model of `cls in self.once_plugins`. -/
def containsClass (l : List PluginClass) (c : PluginClass) : Bool :=
  l.any (fun d => pcBeq d c)

/-- Embedding of `NotRequirableError`: the Python exception carries an args
tuple whose first element is the message and whose remaining elements are
class names; `Breeze.plugin` rebuilds it as
`NotRequirableError(e[0], plugin.__class__.__name__, *e[1:])` (Python 2
exception indexing). -/
structure NRE where
  msg : String
  names : List String
deriving DecidableEq, Repr

/-- The message built by `Breeze._plugin_require` for an unrequirable
requirement. -/
def nreMsg (subName requesterName : String) : String :=
  "Plugin \"" ++ subName ++ "\" required by \"" ++ requesterName ++ "\" cannot be required"

/-- The argument `Breeze.plugin` receives: either an instance of a class or
the class itself (`if type(plugin_instance) is type: plugin_instance =
plugin_instance()`).  `plugin.__class__.__name__` is the class name for an
instance but the metaclass name `type` for a class. -/
inductive PluginArg where
  | inst (c : PluginClass)
  | cls (c : PluginClass)

/-- The class a plugin argument stands for. -/
def PluginArg.pclass : PluginArg → PluginClass
  | .inst c => c
  | .cls c => c

/-- What `plugin.__class__.__name__` evaluates to for the argument. -/
def PluginArg.clsName : PluginArg → String
  | .inst c => c.name
  | .cls _ => "type"

/-- Pipeline registration state: `Breeze.plugins` (instances, modelled by
their classes, in registration order) and `Breeze.once_plugins` (classes
already registered under `run_once`). -/
structure PipelineState where
  plugins : List PluginClass
  once_plugins : List PluginClass

/-- The list of requirements of a class is smaller than the class, for the
termination of requirement resolution. -/
theorem PluginClass.sizeOf_requires_lt (c : PluginClass) : sizeOf c.requires < sizeOf c := by
  cases c with
  | mk n o r q => simp [PluginClass.requires]

mutual
/-- Embedding of `Breeze.plugin(plugin)`: resolve the requirements first,
rewrapping a `NotRequirableError` with this requester prepended to the name
chain; then, for a `run_once` class already registered, warn and skip;
otherwise append the instance (and, when `run_once`, record the class). -/
def addPlugin (s : PipelineState) (arg : PluginArg) : Except NRE PipelineState :=
  match requireList s (PluginArg.clsName arg) (PluginClass.requires (PluginArg.pclass arg)) with
  | .error e => .error { msg := e.msg, names := PluginArg.clsName arg :: e.names }
  | .ok s' =>
    let c := PluginArg.pclass arg
    if c.run_once then
      if containsClass s'.once_plugins c then .ok s'
      else .ok { plugins := s'.plugins ++ [c], once_plugins := s'.once_plugins ++ [c] }
    else .ok { plugins := s'.plugins ++ [c], once_plugins := s'.once_plugins }
termination_by (sizeOf (PluginArg.pclass arg), 0)
decreasing_by
  exact Prod.Lex.left _ _ (PluginClass.sizeOf_requires_lt _)

/-- Embedding of the loop of `Breeze._plugin_require(plugin)`: walk the
required classes in order; an unrequirable one raises `NotRequirableError`
with the message and the required class name; otherwise the class is
instantiated and registered through `Breeze.plugin`, whose errors propagate
unwrapped (the `try` sits in `plugin`, not here). -/
def requireList (s : PipelineState) (requesterName : String)
    (l : List PluginClass) : Except NRE PipelineState :=
  match l with
  | [] => .ok s
  | sub :: rest =>
    if sub.requirable = false then
      .error { msg := nreMsg sub.name requesterName, names := [sub.name] }
    else
      match addPlugin s (.inst sub) with
      | .error e => .error e
      | .ok s' => requireList s' requesterName rest
termination_by (sizeOf l, 1)
decreasing_by
  · exact Prod.Lex.left _ _ (by simp [PluginArg.pclass] <;> omega)
  · exact Prod.Lex.left _ _ (by simp <;> omega)
end

/-- Trivial regex oracle used to instantiate concrete scenarios that never
reach the `re` operator. -/
def rm0 : String → String → Bool := fun _ _ => false

/-- Trivial glob oracle used to instantiate concrete scenarios that never
match a pattern. -/
def fm0 : String → String → Bool := fun _ _ => false

/-- The registry of the query-operator scenario of the spec:
`{"x": {"w": 1}, "y": {"w": 5}, "z": {}}`. -/
def filesXYZ : Registry :=
  [("x", [("w", PyVal.int 1)]), ("y", [("w", PyVal.int 5)]), ("z", [])]

/-- The operator names `Breeze._compare` accepts. -/
def supportedOps : List String :=
  ["eq", "ne", "lt", "lte", "gt", "gte", "re", "fn"]

/-- Membership in an association list is membership among its keys. -/
theorem alContains_iff {α : Type} (k : String) (l : List (String × α)) :
    alContains k l = true ↔ k ∈ alKeys l := by
  induction l with
  | nil => simp [alContains, alGet, alKeys]
  | cons p rest ih =>
    obtain ⟨k', v⟩ := p
    by_cases h : k' = k <;>
      simp [alContains, alGet, alKeys, h, Option.isSome] at ih ⊢ <;> tauto

/-- Assignment keeps the key list unchanged when the key is present and
appends it otherwise. -/
theorem alKeys_alSet {α : Type} (k : String) (v : α) (l : List (String × α)) :
    alKeys (alSet k v l) =
      if k ∈ alKeys l then alKeys l else alKeys l ++ [k] := by
  induction l with
  | nil => simp [alSet, alKeys]
  | cons p rest ih =>
    obtain ⟨k', v'⟩ := p
    by_cases h : k' = k
    · subst h
      simp [alSet, alKeys]
    · simp only [alSet, if_neg h, alKeys, List.map_cons] at ih ⊢
      rw [ih]
      by_cases hm : k ∈ List.map Prod.fst rest <;>
        simp [hm, Ne.symm h]

/-- Assignment never removes a key. -/
theorem mem_alKeys_alSet {α : Type} {x : String} {l : List (String × α)}
    (k : String) (v : α) (h : x ∈ alKeys l) : x ∈ alKeys (alSet k v l) := by
  rw [alKeys_alSet]
  by_cases hm : k ∈ alKeys l <;> simp [hm, h]

/-- Deletion of a key yields a subsequence of the key list. -/
theorem alKeys_alDel_sublist {α : Type} (k : String) (l : List (String × α)) :
    List.Sublist (alKeys (alDel k l)) (alKeys l) :=
  List.Sublist.map Prod.fst (List.filter_sublist l)

/-- The deleted key is gone from the key list. -/
theorem not_mem_alKeys_alDel {α : Type} (k : String) (l : List (String × α)) :
    k ∉ alKeys (alDel k l) := by
  simp [alDel, alKeys, List.mem_map, List.mem_filter]

/-- C1 counterexample: over the registry containing only the record `z`
that lacks the field `w`, the predicate `w__lt=2` treats the missing field as
`None`, which under Python 2 ordering is less than `2`, so `z` MATCHES the
query instead of yielding the non-match the claim asserts for every
comparison operator. -/
theorem c1_missing_lt_matches_counterexample :
    filelist rm0 fm0 [("z", ([] : Record))] Option.none [("w__lt", PyVal.int 2)] =
      Except.ok [("z", ([] : Record))] ∧
    filelist rm0 fm0 [("z", ([] : Record))] Option.none [("w__lt", PyVal.int 2)] ≠
      Except.ok [] := by
  refine ⟨rfl, fun h => ?_⟩
  rw [show filelist rm0 fm0 [("z", ([] : Record))] Option.none [("w__lt", PyVal.int 2)] =
        Except.ok [("z", ([] : Record))] from rfl] at h
  exact List.noConfusion (Except.ok.inj h)

/-- C1 (amended): a record lacking the queried field is treated as having
value `None` and never raises; under the Python 2 ordering the code uses,
`None` is below every non-`None` value, so `gt` and `gte` predicates with a
non-`None` test yield a non-match while `lt` and `lte` yield a match; on the
scenario registry, `filelist(w__gte=2)` returns exactly the pair for `y`. -/
theorem c1_missing_field_comparison (rmatch fmatch : String → String → Bool) :
    filelist rmatch fmatch filesXYZ Option.none [("w__gte", PyVal.int 2)] =
      Except.ok [("y", [("w", PyVal.int 5)])] ∧
    (∀ key data test, alGet key data = Option.none → test ≠ PyVal.none →
      _compare rmatch fmatch key "gte" false test data = Except.ok false ∧
      _compare rmatch fmatch key "gt" false test data = Except.ok false ∧
      _compare rmatch fmatch key "lt" false test data = Except.ok true ∧
      _compare rmatch fmatch key "lte" false test data = Except.ok true) := by
  refine ⟨rfl, fun key data test h ht => ?_⟩
  cases test with
  | none => exact absurd rfl ht
  | int n =>
    refine ⟨?_, ?_, ?_, ?_⟩ <;> simp [_compare, h, pyLt, pyLe, PyVal.typeRank]
  | str s =>
    refine ⟨?_, ?_, ?_, ?_⟩ <;> simp [_compare, h, pyLt, pyLe, PyVal.typeRank]

/-- Witness for the amended C1 at a concrete input. -/
theorem c1_missing_field_comparison_witness :
    _compare rm0 fm0 "w" "gte" false (PyVal.int 2) [] = Except.ok false ∧
    _compare rm0 fm0 "w" "gt" false (PyVal.int 2) [] = Except.ok false ∧
    _compare rm0 fm0 "w" "lt" false (PyVal.int 2) [] = Except.ok true ∧
    _compare rm0 fm0 "w" "lte" false (PyVal.int 2) [] = Except.ok true :=
  (c1_missing_field_comparison rm0 fm0).2 "w" [] (PyVal.int 2) rfl (by decide)

/-- A supported operator never raises the invalid-operator error (it either
evaluates, or raises the distinct type error of the `re` / `fn` externals on
non-string values). -/
theorem _compare_ne_invalidOp (rmatch fmatch : String → String → Bool)
    (key op : String) (invert : Bool) (test : PyVal) (data : Record)
    (hop : op ∈ supportedOps) (o : String) :
    _compare rmatch fmatch key op invert test data ≠
      Except.error (QErr.invalidOp o) := by
  rcases hval : (alGet key data).getD PyVal.none with _ | n | s <;>
    fin_cases hop <;> cases test <;> simp [_compare, hval]

/-- A predicate key whose parsed operator is supported never raises the
invalid-operator error. -/
theorem _compare_key_ne_invalidOp (rmatch fmatch : String → String → Bool)
    (key : String) (test : PyVal) (data : Record)
    (hop : effOp (parseKey key).2.2 ∈ supportedOps) (o : String) :
    _compare_key rmatch fmatch key test data ≠
      Except.error (QErr.invalidOp o) :=
  _compare_ne_invalidOp rmatch fmatch _ _ _ _ _ hop o

/-- The predicate loop never raises the invalid-operator error when every
keyword parses to a supported operator. -/
theorem checkKwargs_ne_invalidOp (rmatch fmatch : String → String → Bool)
    (kwargs : List (String × PyVal)) (data : Record)
    (hops : ∀ p ∈ kwargs, effOp (parseKey p.1).2.2 ∈ supportedOps) (o : String) :
    checkKwargs rmatch fmatch kwargs data ≠ Except.error (QErr.invalidOp o) := by
  induction kwargs with
  | nil => simp [checkKwargs]
  | cons p rest ih =>
    obtain ⟨k, t⟩ := p
    have hk := hops (k, t) (List.mem_cons_self _ _)
    have hrest := fun q hq => hops q (List.mem_cons_of_mem _ hq)
    simp only [checkKwargs]
    cases hc : _compare_key rmatch fmatch k t data with
    | error e =>
      intro heq
      exact _compare_key_ne_invalidOp rmatch fmatch k t data hk o (hc.trans heq)
    | ok b => cases b <;> simp [ih hrest]

/-- The admission check never raises the invalid-operator error when every
keyword parses to a supported operator. -/
theorem keepFile_ne_invalidOp (rmatch fmatch : String → String → Bool)
    (pattern : Option String) (kwargs : List (String × PyVal))
    (fname : String) (fd : Record)
    (hops : ∀ p ∈ kwargs, effOp (parseKey p.1).2.2 ∈ supportedOps) (o : String) :
    keepFile rmatch fmatch pattern kwargs fname fd ≠
      Except.error (QErr.invalidOp o) := by
  cases pattern with
  | none => exact checkKwargs_ne_invalidOp rmatch fmatch kwargs fd hops o
  | some pat =>
    simp only [keepFile]
    cases fmatch fname pat <;> simp
    exact checkKwargs_ne_invalidOp rmatch fmatch kwargs fd hops o

/-- C7: a query with an unrecognized operator raises the invalid-operator
error when evaluated (scenario `filelist(w__badop=2)` over the scenario
registry), while a query whose predicate keys all parse to supported
operators never raises that error. -/
theorem c7_invalid_operator (rmatch fmatch : String → String → Bool) :
    filelist rmatch fmatch filesXYZ Option.none [("w__badop", PyVal.int 2)] =
      Except.error (QErr.invalidOp "badop") ∧
    (∀ (files : Registry) (pattern : Option String)
       (kwargs : List (String × PyVal)),
       (∀ p ∈ kwargs, effOp (parseKey p.1).2.2 ∈ supportedOps) →
       ∀ o, filelist rmatch fmatch files pattern kwargs ≠
         Except.error (QErr.invalidOp o)) := by
  refine ⟨rfl, fun files pattern kwargs hops o => ?_⟩
  induction files with
  | nil => simp [filelist]
  | cons p rest ih =>
    obtain ⟨fname, fd⟩ := p
    simp only [filelist]
    cases hkeep : keepFile rmatch fmatch pattern kwargs fname fd with
    | error e =>
      show Except.error e ≠ Except.error (QErr.invalidOp o)
      intro heq
      injection heq with h2
      exact keepFile_ne_invalidOp rmatch fmatch pattern kwargs fname fd hops o
        (hkeep.trans (congrArg Except.error h2))
    | ok b =>
      cases b with
      | false => exact ih
      | true =>
        cases hrec : filelist rmatch fmatch rest pattern kwargs with
        | error e =>
          show Except.error e ≠ Except.error (QErr.invalidOp o)
          intro heq
          injection heq with h2
          exact ih (hrec.trans (congrArg Except.error h2))
        | ok out =>
          show Except.ok ((fname, fd) :: out) ≠ Except.error (QErr.invalidOp o)
          simp

/-- Witness for C7 at a concrete input: the scenario query `w__gte=2` parses
to the supported operator `gte` and indeed raises no invalid-operator
error. -/
theorem c7_invalid_operator_witness (o : String) :
    filelist rm0 fm0 filesXYZ Option.none [("w__gte", PyVal.int 2)] ≠
      Except.error (QErr.invalidOp o) :=
  (c7_invalid_operator rm0 fm0).2 filesXYZ Option.none [("w__gte", PyVal.int 2)]
    (by decide) o

/-- Requirement resolution processes a concatenation of requirement lists
left to right, propagating the first error. -/
theorem requireList_append (s : PipelineState) (n : String)
    (l1 l2 : List PluginClass) :
    requireList s n (l1 ++ l2) =
      match requireList s n l1 with
      | .ok s' => requireList s' n l2
      | .error e => .error e := by
  induction l1 generalizing s with
  | nil => simp [requireList]
  | cons sub rest ih =>
    simp only [List.cons_append, requireList]
    by_cases h : sub.requirable = false
    · simp [h]
    · simp only [h, if_false]
      cases addPlugin s (.inst sub) with
      | error e => simp
      | ok s'' => simpa using ih s''

/-- C2: a plugin whose requirement list reaches a type with
`requirable = False` cannot be registered: `plugin` raises a
`NotRequirableError` whose message and argument tuple carry both the
unrequirable type and the requesting plugin, and every further requester that
the error propagates through prepends its own name to the argument chain, so
the top-level error reports the original unrequirable type plus every
requester. -/
theorem c2_not_requirable_chain :
    (∀ (s : PipelineState) (p T : PluginClass) (pre rest : List PluginClass)
       (s' : PipelineState),
       p.requires = pre ++ T :: rest →
       T.requirable = false →
       requireList s p.name pre = Except.ok s' →
       addPlugin s (.inst p) =
         Except.error { msg := nreMsg T.name p.name, names := [p.name, T.name] }) ∧
    (∀ (s : PipelineState) (q sub : PluginClass) (pre rest : List PluginClass)
       (s' : PipelineState) (e : NRE),
       q.requires = pre ++ sub :: rest →
       requireList s q.name pre = Except.ok s' →
       sub.requirable = true →
       addPlugin s' (.inst sub) = Except.error e →
       addPlugin s (.inst q) =
         Except.error { msg := e.msg, names := q.name :: e.names }) := by
  constructor
  · intro s p T pre rest s' h1 h2 h3
    have hreq : requireList s p.name (pre ++ T :: rest) =
        Except.error { msg := nreMsg T.name p.name, names := [T.name] } := by
      rw [requireList_append, h3]
      simp [requireList, h2]
    simp [addPlugin, PluginArg.clsName, PluginArg.pclass, h1, hreq]
  · intro s q sub pre rest s' e h1 h3 h2 h4
    have hreq : requireList s q.name (pre ++ sub :: rest) = Except.error e := by
      rw [requireList_append, h3]
      simp [requireList, h2, h4]
    simp [addPlugin, PluginArg.clsName, PluginArg.pclass, h1, hreq]

/-- Concrete plugin classes for the requirement-chain scenario: `T` forbids
being required, `P` requires `T`, `Q` requires `P`. -/
def Tclass : PluginClass := .mk "T" false false []

/-- The middle class of the chain scenario. -/
def Pclass : PluginClass := .mk "P" false true [Tclass]

/-- The top class of the chain scenario. -/
def Qclass : PluginClass := .mk "Q" false true [Pclass]

/-- The empty pipeline state. -/
def emptyPipeline : PipelineState := { plugins := [], once_plugins := [] }

/-- Witness for C2: registering `Q` raises the error whose message names `T`
and its direct requester `P`, and whose argument chain lists every requester
down to `T`. -/
theorem c2_not_requirable_chain_witness :
    addPlugin emptyPipeline (.inst Qclass) =
      Except.error { msg := nreMsg "T" "P", names := ["Q", "P", "T"] } :=
  c2_not_requirable_chain.2 emptyPipeline Qclass Pclass [] [] emptyPipeline
    { msg := nreMsg "T" "P", names := ["P", "T"] } rfl (by simp [requireList]) rfl
    (c2_not_requirable_chain.1 emptyPipeline Pclass Tclass [] [] emptyPipeline rfl rfl
      (by simp [requireList]))

mutual
/-- Structural class equality is reflexive (a class is identical to
itself). -/
theorem pcBeq_refl : ∀ c : PluginClass, pcBeq c c = true
  | .mk n o r q => by simp [pcBeq, pcBeqList_refl q]
/-- List version of `pcBeq_refl`. -/
theorem pcBeqList_refl : ∀ l : List PluginClass, pcBeqList l l = true
  | [] => by simp [pcBeqList]
  | c :: cs => by simp [pcBeqList, pcBeq_refl c, pcBeqList_refl cs]
end

/-- Concrete requirement-free class used by the run-once scenarios. -/
def Dclass : PluginClass := .mk "D" false true []

/-- Concrete `run_once` class that requires `Dclass`. -/
def Cclass : PluginClass := .mk "C" true true [Dclass]

/-- C5 counterexample: for the `run_once` class `C` requiring `D`, the first
registration appends `D` then `C`, but the second registration is NOT a
no-op on the plugin list: requirement resolution runs before the run-once
check and appends `D` a second time, so the list changes from `[D, C]` to
`[D, C, D]` even though `C` itself is skipped. -/
theorem c5_second_add_changes_list_counterexample :
    addPlugin emptyPipeline (.inst Cclass) =
      Except.ok { plugins := [Dclass, Cclass], once_plugins := [Cclass] } ∧
    addPlugin { plugins := [Dclass, Cclass], once_plugins := [Cclass] } (.inst Cclass) =
      Except.ok { plugins := [Dclass, Cclass, Dclass], once_plugins := [Cclass] } ∧
    List.map PluginClass.name [Dclass, Cclass, Dclass] ≠
      List.map PluginClass.name [Dclass, Cclass] := by
  refine ⟨?_, ?_, by decide⟩
  · simp [addPlugin, requireList, Cclass, Dclass, emptyPipeline, PluginArg.pclass,
      PluginArg.clsName, PluginClass.requires, PluginClass.run_once,
      PluginClass.requirable, PluginClass.name, containsClass, pcBeq, pcBeqList]
  · simp [addPlugin, requireList, Cclass, Dclass, PluginArg.pclass,
      PluginArg.clsName, PluginClass.requires, PluginClass.run_once,
      PluginClass.requirable, PluginClass.name, containsClass, pcBeq, pcBeqList]

/-- C5 (amended): a `run_once` class with no requirements that is not yet
registered is appended by the first registration, and a second registration
of the same class is a silent no-op leaving the pipeline state unchanged (in
general only the class itself is skipped; its requirements are re-resolved
first and may be appended again, as the counterexample shows). -/
theorem c5_run_once_registers_once (s : PipelineState) (c : PluginClass)
    (h1 : c.run_once = true) (h2 : c.requires = [])
    (h3 : containsClass s.once_plugins c = false) :
    addPlugin s (.inst c) =
      Except.ok { plugins := s.plugins ++ [c], once_plugins := s.once_plugins ++ [c] } ∧
    addPlugin { plugins := s.plugins ++ [c], once_plugins := s.once_plugins ++ [c] }
        (.inst c) =
      Except.ok { plugins := s.plugins ++ [c], once_plugins := s.once_plugins ++ [c] } := by
  have hcontains : containsClass (s.once_plugins ++ [c]) c = true := by
    simp [containsClass, pcBeq_refl]
  constructor
  · simp [addPlugin, PluginArg.pclass, PluginArg.clsName, h1, h2, h3, requireList]
  · simp [addPlugin, PluginArg.pclass, PluginArg.clsName, h1, h2, hcontains, requireList]

/-- Concrete requirement-free `run_once` class for the C5 witness. -/
def Rclass : PluginClass := .mk "R" true true []

/-- Witness for the amended C5 at a concrete input. -/
theorem c5_run_once_registers_once_witness :
    addPlugin emptyPipeline (.inst Rclass) =
      Except.ok { plugins := [Rclass], once_plugins := [Rclass] } ∧
    addPlugin { plugins := [Rclass], once_plugins := [Rclass] } (.inst Rclass) =
      Except.ok { plugins := [Rclass], once_plugins := [Rclass] } := by
  have h := c5_run_once_registers_once emptyPipeline Rclass rfl rfl rfl
  simpa [emptyPipeline] using h

/-- The plugin of the context-overlay scenario: constructed with
`additional_context={"a": 1}`, its `_run` sets `context["a"] = 99` and
deletes `"b"`. -/
def overlayPlugin : PluginDef :=
  { additional_context := [("a", PyVal.int 1)]
  , file_data := []
  , ops := [POp.setContext "a" (PyVal.int 99), POp.delContext "b"]
  , ret := Option.none }

/-- The Breeze state of the context-overlay scenario: live context
`{"b": 2}`. -/
def overlayBreeze : BreezeState := { files := [], context := [("b", PyVal.int 2)] }

/-- C3: during `_run` the merged context view yields `a = 1` (from the
additional context) and `b = 2` (from the live context); after `run`
returns, the live context equals exactly `[("a", 99)]`, and the
additional-context dictionary held by the merged view is still the original
one (writes went to the overlay and the flush only into the primary). -/
theorem c3_context_overlay :
    (mkRunState overlayPlugin overlayBreeze).ctx.get "a" = some (PyVal.int 1) ∧
    (mkRunState overlayPlugin overlayBreeze).ctx.get "b" = some (PyVal.int 2) ∧
    (Plugin.run overlayPlugin overlayBreeze).1.context = [("a", PyVal.int 99)] ∧
    (Plugin.run overlayPlugin overlayBreeze).2 = Except.ok Option.none ∧
    (runOps (mkRunState overlayPlugin overlayBreeze) overlayPlugin.ops).1.ctx.given =
      [[("a", PyVal.int 1)], [("b", PyVal.int 2)]] :=
  ⟨rfl, rfl, rfl, rfl, rfl⟩

/-- C6: when a run returns a replacement registry, the rest of the pipeline
(and the final output) runs on the replacement; when it returns `None`, the
rest of the pipeline runs on the same in-place-mutated state. -/
theorem c6_registry_replacement :
    (∀ (p : PluginDef) (b b' : BreezeState) (r : Registry) (rest : List PluginDef),
       Plugin.run p b = (b', Except.ok (some r)) →
       run_plugins b (p :: rest) =
         run_plugins { files := r, context := b'.context } rest ∧
       (run_plugins b [p]).1.files = r) ∧
    (∀ (p : PluginDef) (b b' : BreezeState) (rest : List PluginDef),
       Plugin.run p b = (b', Except.ok Option.none) →
       run_plugins b (p :: rest) = run_plugins b' rest) := by
  constructor
  · intro p b b' r rest h
    constructor
    · simp [run_plugins, h]
    · simp [run_plugins, h]
  · intro p b b' rest h
    simp [run_plugins, h]

/-- A plugin whose `_run` does nothing and which returns a one-record
replacement registry, for the C6 witness. -/
def replacingPlugin : PluginDef :=
  { additional_context := [], file_data := [], ops := []
  , ret := some [("r", [("v", PyVal.int 1)])] }

/-- The empty Breeze state. -/
def emptyBreeze : BreezeState := { files := [], context := [] }

/-- Witness for C6 at a concrete input. -/
theorem c6_registry_replacement_witness :
    run_plugins emptyBreeze [replacingPlugin] =
      run_plugins { files := [("r", [("v", PyVal.int 1)])], context := [] } [] ∧
    (run_plugins emptyBreeze [replacingPlugin]).1.files = [("r", [("v", PyVal.int 1)])] :=
  c6_registry_replacement.1 replacingPlugin emptyBreeze emptyBreeze
    [("r", [("v", PyVal.int 1)])] [] rfl

/-- C9: `mark_matched` on a key absent from the registry does not raise and
leaves the registry untouched; on a present key it merges the configured
`file_data` into that record (in place, order preserved). -/
theorem c9_mark_matched (s : PluginState) (k : String) :
    (k ∉ alKeys s.files →
       step s (POp.markMatched k) =
         Except.ok { s with matched := s.matched ++ [k] }) ∧
    (∀ r, alGet k s.files = some r →
       step s (POp.markMatched k) =
         Except.ok { s with matched := s.matched ++ [k],
                            files := alSet k (alUpdate r s.fileData) s.files }) := by
  constructor
  · intro h
    have hg : alGet k s.files = Option.none := by
      cases hg : alGet k s.files with
      | none => rfl
      | some r =>
        exact absurd ((alContains_iff k s.files).1 (by simp [alContains, hg])) h
    simp [step, hg]
  · intro r h
    simp [step, h]

/-- Concrete plugin state for the C9 witness: one record `f`, configured
`file_data` merging `t = "y"`. -/
def markState : PluginState :=
  { files := [("f", [("u", PyVal.int 0)])]
  , ctx := { changes := [], given := [], deletions := [] }
  , queue := [], matched := [], fileData := [("t", PyVal.str "y")] }

/-- Witness for C9 at concrete inputs: a missing key is tolerated, a present
key receives the `file_data` merge. -/
theorem c9_mark_matched_witness :
    step markState (POp.markMatched "nope") =
      Except.ok { markState with matched := ["nope"] } ∧
    step markState (POp.markMatched "f") =
      Except.ok { markState with
        matched := ["f"],
        files := alSet "f" (alUpdate [("u", PyVal.int 0)] markState.fileData)
          markState.files } :=
  ⟨(c9_mark_matched markState "nope").1 (by decide),
   (c9_mark_matched markState "f").2 [("u", PyVal.int 0)] rfl⟩

/-- A single `_run` operation never removes registry keys: the key list
after a successful step is the old key list with at most one fresh key
appended. -/
theorem step_keys (s : PluginState) (op : POp) (s' : PluginState)
    (h : step s op = Except.ok s') :
    ∃ t, alKeys s'.files = alKeys s.files ++ t ∧ ∀ x ∈ t, x ∉ alKeys s.files := by
  cases op with
  | setFile k r =>
    simp only [step, Except.ok.injEq] at h
    subst h
    by_cases hm : k ∈ alKeys s.files
    · exact ⟨[], by simp [alKeys_alSet, hm], by simp⟩
    · exact ⟨[k], by simp [alKeys_alSet, hm], by simp [hm]⟩
  | updFile k f v =>
    cases hg : alGet k s.files with
    | none => simp [step, hg] at h
    | some r =>
      simp only [step, hg, Except.ok.injEq] at h
      subst h
      have hm : k ∈ alKeys s.files :=
        (alContains_iff k s.files).1 (by simp [alContains, hg])
      exact ⟨[], by simp [alKeys_alSet, hm], by simp⟩
  | markMatched k =>
    cases hg : alGet k s.files with
    | none =>
      simp only [step, hg, Except.ok.injEq] at h
      subst h
      exact ⟨[], by simp, by simp⟩
    | some r =>
      simp only [step, hg, Except.ok.injEq] at h
      subst h
      have hm : k ∈ alKeys s.files :=
        (alContains_iff k s.files).1 (by simp [alContains, hg])
      exact ⟨[], by simp [alKeys_alSet, hm], by simp⟩
  | delete k =>
    simp only [step, Except.ok.injEq] at h
    subst h
    exact ⟨[], by simp, by simp⟩
  | setContext k v =>
    simp only [step, Except.ok.injEq] at h
    subst h
    exact ⟨[], by simp, by simp⟩
  | delContext k =>
    cases hc : s.ctx.contains k with
    | false => simp [step, hc] at h
    | true =>
      simp only [step, hc, if_true, Except.ok.injEq] at h
      subst h
      exact ⟨[], by simp, by simp⟩

/-- Over a whole `_run` trace the key list only grows: it is the initial key
list followed by the fresh keys inserted along the way. -/
theorem runOps_keys (t : List POp) (s : PluginState) :
    ∃ news, alKeys ((runOps s t).1.files) = alKeys s.files ++ news ∧
      ∀ x ∈ news, x ∉ alKeys s.files := by
  induction t generalizing s with
  | nil => exact ⟨[], by simp [runOps], by simp⟩
  | cons op rest ih =>
    simp only [runOps]
    cases hst : step s op with
    | error e => exact ⟨[], by simp, by simp⟩
    | ok s'' =>
      obtain ⟨t1, h1, h1f⟩ := step_keys s op s'' hst
      obtain ⟨t2, h2, h2f⟩ := ih s''
      refine ⟨t1 ++ t2, ?_, ?_⟩
      · rw [h2, h1, List.append_assoc]
      · intro x hx
        rcases List.mem_append.1 hx with hx1 | hx2
        · exact h1f x hx1
        · intro hmem
          exact h2f x hx2 (by rw [h1]; exact List.mem_append_left _ hmem)

/-- A key present in the registry stays present through any `_run` trace
(deletions are only queued, never applied mid-run). -/
theorem mem_files_runOps (k : String) :
    ∀ (t : List POp) (s : PluginState), k ∈ alKeys s.files →
      k ∈ alKeys ((runOps s t).1.files) := by
  intro t
  induction t with
  | nil => intro s h; simpa [runOps] using h
  | cons op rest ih =>
    intro s h
    simp only [runOps]
    cases hst : step s op with
    | error e => simpa using h
    | ok s'' =>
      apply ih
      obtain ⟨t1, h1, _⟩ := step_keys s op s'' hst
      rw [h1]
      exact List.mem_append_left _ h

/-- A successful step never removes entries from the deletion queue. -/
theorem step_queue_mono (s : PluginState) (op : POp) (s' : PluginState)
    (h : step s op = Except.ok s') (x : String) (hx : x ∈ s.queue) :
    x ∈ s'.queue := by
  cases op with
  | setFile k r =>
    simp only [step, Except.ok.injEq] at h
    subst h; exact hx
  | updFile k f v =>
    cases hg : alGet k s.files with
    | none => simp [step, hg] at h
    | some r =>
      simp only [step, hg, Except.ok.injEq] at h
      subst h; exact hx
  | markMatched k =>
    cases hg : alGet k s.files with
    | none =>
      simp only [step, hg, Except.ok.injEq] at h
      subst h; exact hx
    | some r =>
      simp only [step, hg, Except.ok.injEq] at h
      subst h; exact hx
  | delete k =>
    simp only [step, Except.ok.injEq] at h
    subst h
    exact List.mem_append_left _ hx
  | setContext k v =>
    simp only [step, Except.ok.injEq] at h
    subst h; exact hx
  | delContext k =>
    cases hc : s.ctx.contains k with
    | false => simp [step, hc] at h
    | true =>
      simp only [step, hc, if_true, Except.ok.injEq] at h
      subst h; exact hx

/-- Queue entries survive the rest of a trace. -/
theorem runOps_queue_mono (x : String) :
    ∀ (t : List POp) (s : PluginState), x ∈ s.queue →
      x ∈ (runOps s t).1.queue := by
  intro t
  induction t with
  | nil => intro s h; simpa [runOps] using h
  | cons op rest ih =>
    intro s h
    simp only [runOps]
    cases hst : step s op with
    | error e => simpa using h
    | ok s'' => exact ih s'' (step_queue_mono s op s'' hst x h)

/-- A `delete(k)` call inside a completed `_run` trace leaves `k` in the
final deletion queue. -/
theorem runOps_delete_in_queue (k : String) :
    ∀ (t : List POp) (s s' : PluginState), POp.delete k ∈ t →
      runOps s t = (s', Option.none) → k ∈ s'.queue := by
  intro t
  induction t with
  | nil => intro s s' hmem; simp at hmem
  | cons op rest ih =>
    intro s s' hmem h
    simp only [runOps] at h
    cases hst : step s op with
    | error e => rw [hst] at h; simp at h
    | ok s'' =>
      rw [hst] at h
      rcases List.mem_cons.1 hmem with heq | hm2
    
      · have hq : k ∈ s''.queue := by
          rw [← heq] at hst
          simp only [step, Except.ok.injEq] at hst
          rw [← hst]
          simp
        have h2 : runOps s'' rest = (s', Option.none) := h
        have hfin := runOps_queue_mono k rest s'' hq
        rw [h2] at hfin
        exact hfin
      · exact ih s'' s' hm2 h

/-- The deletion loop only removes keys. -/
theorem applyDeletions_keys_sublist (q : List String) (f : Registry) :
    List.Sublist (alKeys (applyDeletions f q).1) (alKeys f) := by
  induction q generalizing f with
  | nil => simp [applyDeletions]
  | cons k rest ih =>
    simp only [applyDeletions]
    cases hc : alContains k f with
    | true =>
      simp only [hc, if_true]
      exact (ih (alDel k f)).trans (alKeys_alDel_sublist k f)
    | false => simp [hc]

/-- A deletion loop that completes without raising has removed every queued
key from the registry. -/
theorem applyDeletions_removes (q : List String) (f f' : Registry)
    (h : applyDeletions f q = (f', Option.none)) : ∀ k ∈ q, k ∉ alKeys f' := by
  induction q generalizing f with
  | nil => simp
  | cons k0 rest ih =>
    intro k hk
    cases hc : alContains k0 f with
    | false => simp [applyDeletions, hc] at h
    | true =>
      simp only [applyDeletions, hc, if_true] at h
      rcases List.mem_cons.1 hk with heq | hk2
      · subst heq
        have hfst : (applyDeletions (alDel k f) rest).1 = f' := by rw [h]
        have hsub := applyDeletions_keys_sublist rest (alDel k f)
        rw [hfst] at hsub
        intro hmem
        exact not_mem_alKeys_alDel k f (hsub.subset hmem)
      · exact ih (alDel k0 f) h k hk2

/-- A deletion loop completes without raising exactly when the queue has no
duplicates and every queued key is present: conversely, a duplicate or a
missing key makes `del self.files[filename]` raise. -/
theorem applyDeletions_ok (q : List String) (f f' : Registry)
    (h : applyDeletions f q = (f', Option.none)) :
    q.Nodup ∧ ∀ k ∈ q, alContains k f = true := by
  induction q generalizing f with
  | nil => simp
  | cons k0 rest ih =>
    cases hc : alContains k0 f with
    | false => simp [applyDeletions, hc] at h
    | true =>
      simp only [applyDeletions, hc, if_true] at h
      obtain ⟨hnd, hall⟩ := ih (alDel k0 f) h
      constructor
      · refine List.nodup_cons.2 ⟨?_, hnd⟩
        intro hmem
        have h2 : k0 ∈ alKeys (alDel k0 f) :=
          (alContains_iff _ _).1 (hall k0 hmem)
        exact not_mem_alKeys_alDel k0 f h2
      · intro k hk
        rcases List.mem_cons.1 hk with heq | hk2
        · subst heq; exact hc
        · have h2 : k ∈ alKeys (alDel k0 f) :=
            (alContains_iff _ _).1 (hall k hk2)
          exact (alContains_iff _ _).2 ((alKeys_alDel_sublist k0 f).subset h2)

/-- Unfolding of `Plugin.run` when `_run` completes: the context is flushed
and the queued deletions are applied. -/
theorem Plugin.run_of_ok (p : PluginDef) (b : BreezeState) (s1 : PluginState)
    (h : runOps (mkRunState p b) p.ops = (s1, Option.none)) :
    Plugin.run p b =
      match applyDeletions s1.files s1.queue with
      | (files', some k) =>
        ({ files := files', context := s1.ctx.merge_changes },
          Except.error ("KeyError: " ++ k))
      | (files', Option.none) =>
        ({ files := files', context := s1.ctx.merge_changes }, Except.ok p.ret) := by
  unfold Plugin.run
  rw [h]

/-- Unfolding of `Plugin.run` when `_run` raises: the mutations so far stand,
the live context is untouched, and the error propagates. -/
theorem Plugin.run_of_err (p : PluginDef) (b : BreezeState) (s1 : PluginState)
    (e : String) (h : runOps (mkRunState p b) p.ops = (s1, some e)) :
    Plugin.run p b =
      ({ files := s1.files, context := b.context }, Except.error e) := by
  unfold Plugin.run
  rw [h]

/-- C4: a registry key is never removed while `_run` is still executing, no
matter what the plugin does (deletions are only queued); once `run` has
returned successfully, every key passed to `delete` is gone from the
registry. -/
theorem c4_deferred_deletion (p : PluginDef) (b : BreezeState) (k : String) :
    (k ∈ alKeys b.files → ∀ t : List POp,
       k ∈ alKeys ((runOps (mkRunState p b) t).1.files)) ∧
    (∀ (b' : BreezeState) (ret : Option Registry), POp.delete k ∈ p.ops →
       Plugin.run p b = (b', Except.ok ret) → k ∉ alKeys b'.files) := by
  constructor
  · intro hmem t
    exact mem_files_runOps k t (mkRunState p b) hmem
  · intro b' ret hdel hrun
    cases hro : runOps (mkRunState p b) p.ops with
    | mk s1 err =>
      cases err with
      | some e =>
        rw [Plugin.run_of_err p b s1 e hro] at hrun
        simp at hrun
      | none =>
        rw [Plugin.run_of_ok p b s1 hro] at hrun
        cases hAD : applyDeletions s1.files s1.queue with
        | mk files' err2 =>
          rw [hAD] at hrun
          cases err2 with
          | some kk => simp at hrun
          | none =>
            simp only [Prod.mk.injEq, Except.ok.injEq] at hrun
            obtain ⟨hb', _⟩ := hrun
            subst hb'
            have hq : k ∈ s1.queue :=
              runOps_delete_in_queue k p.ops (mkRunState p b) s1 hdel hro
            exact applyDeletions_removes s1.queue s1.files files' hAD k hq

/-- Plugin of the C4 witness: `_run` deletes the record `bar`. -/
def deletingPlugin : PluginDef :=
  { additional_context := [], file_data := [], ops := [POp.delete "bar"]
  , ret := Option.none }

/-- Breeze state of the C4 witness: records `bar` and `foo`. -/
def twoFileBreeze : BreezeState :=
  { files := [("bar", []), ("foo", [])], context := [] }

/-- Witness for C4 at a concrete input: `bar` is still visible after the
whole `_run` trace has executed, and gone once `run` has returned. -/
theorem c4_deferred_deletion_witness :
    "bar" ∈ alKeys ((runOps (mkRunState deletingPlugin twoFileBreeze)
      deletingPlugin.ops).1.files) ∧
    "bar" ∉ alKeys ({ files := [("foo", [])], context := [] } : BreezeState).files :=
  ⟨(c4_deferred_deletion deletingPlugin twoFileBreeze "bar").1 (by decide)
      deletingPlugin.ops,
   (c4_deferred_deletion deletingPlugin twoFileBreeze "bar").2
      { files := [("foo", [])], context := [] } Option.none (by decide) rfl⟩

/-- C8: a successful plugin run that returns `None` preserves the relative
order of the surviving original keys and appends every newly inserted key
after them: the final key list splits into a subsequence of the original key
list followed by keys that were not present before. -/
theorem c8_order_preservation (p : PluginDef) (b b' : BreezeState)
    (hrun : Plugin.run p b = (b', Except.ok Option.none)) :
    ∃ olds news, alKeys b'.files = olds ++ news ∧
      List.Sublist olds (alKeys b.files) ∧ ∀ x ∈ news, x ∉ alKeys b.files := by
  cases hro : runOps (mkRunState p b) p.ops with
  | mk s1 err =>
    cases err with
    | some e =>
      rw [Plugin.run_of_err p b s1 e hro] at hrun
      simp at hrun
    | none =>
      rw [Plugin.run_of_ok p b s1 hro] at hrun
      cases hAD : applyDeletions s1.files s1.queue with
      | mk files' err2 =>
        rw [hAD] at hrun
        cases err2 with
        | some kk => simp at hrun
        | none =>
          simp only [Prod.mk.injEq, Except.ok.injEq] at hrun
          obtain ⟨hb', _⟩ := hrun
          subst hb'
          obtain ⟨news, hkeys, hfresh⟩ := runOps_keys p.ops (mkRunState p b)
          rw [hro] at hkeys
          have hsub := applyDeletions_keys_sublist s1.queue s1.files
          rw [hAD] at hsub
          rw [hkeys] at hsub
          rw [List.sublist_append_iff] at hsub
          obtain ⟨olds, news', heq2, hsub1, hsub2⟩ := hsub
          exact ⟨olds, news', heq2, hsub1,
            fun x hx hmem => hfresh x (hsub2.subset hx) hmem⟩

/-- Plugin of the C8 witness: `_run` inserts a fresh record `new` and
deletes `old`. -/
def insertDeletePlugin : PluginDef :=
  { additional_context := [], file_data := []
  , ops := [POp.setFile "new" [], POp.delete "old"], ret := Option.none }

/-- Breeze state of the C8 witness. -/
def orderBreeze : BreezeState :=
  { files := [("old", []), ("keep", [])], context := [] }

/-- Witness for C8 at a concrete input. -/
theorem c8_order_preservation_witness :
    ∃ olds news,
      alKeys ({ files := [("keep", []), ("new", [])], context := [] } : BreezeState).files =
        olds ++ news ∧
      List.Sublist olds (alKeys orderBreeze.files) ∧
      ∀ x ∈ news, x ∉ alKeys orderBreeze.files :=
  c8_order_preservation insertDeletePlugin orderBreeze
    { files := [("keep", []), ("new", [])], context := [] } rfl

/-- C10: queued deletions are not tolerant of missing keys: when the
deletion queue at the end of `_run` holds a key absent from the registry or
holds some key twice, `run` raises a `KeyError` while applying deletions,
and the returned state shows the context overlay already flushed into the
live context (the flush precedes the deletion loop). -/
theorem c10_deletion_keyerror (p : PluginDef) (b : BreezeState) (s1 : PluginState)
    (h1 : runOps (mkRunState p b) p.ops = (s1, Option.none))
    (h2 : (∃ k ∈ s1.queue, k ∉ alKeys s1.files) ∨ ¬ s1.queue.Nodup) :
    ∃ k, Plugin.run p b =
      ({ files := (applyDeletions s1.files s1.queue).1,
         context := s1.ctx.merge_changes },
        Except.error ("KeyError: " ++ k)) := by
  cases hAD : applyDeletions s1.files s1.queue with
  | mk files' err2 =>
    cases err2 with
    | none =>
      obtain ⟨hnd, hall⟩ := applyDeletions_ok s1.queue s1.files files' hAD
      rcases h2 with ⟨k, hk, habs⟩ | hh
      · exact absurd ((alContains_iff k s1.files).1 (hall k hk)) habs
      · exact absurd hnd hh
    | some k =>
      refine ⟨k, ?_⟩
      rw [Plugin.run_of_ok p b s1 h1, hAD]

/-- Plugin of the C10 witness: `_run` writes to the context and queues the
deletion of a key that never existed. -/
def ghostDeletePlugin : PluginDef :=
  { additional_context := [], file_data := []
  , ops := [POp.setContext "x" (PyVal.int 7), POp.delete "ghost"]
  , ret := Option.none }

/-- Breeze state of the C10 witness. -/
def ghostBreeze : BreezeState := { files := [("real", [])], context := [] }

/-- Witness for C10 at a concrete input: the run raises the `KeyError` and
the returned state carries the flushed context `x = 7`. -/
theorem c10_deletion_keyerror_witness :
    ∃ k, Plugin.run ghostDeletePlugin ghostBreeze =
      ({ files := (applyDeletions
            (runOps (mkRunState ghostDeletePlugin ghostBreeze)
              ghostDeletePlugin.ops).1.files
            (runOps (mkRunState ghostDeletePlugin ghostBreeze)
              ghostDeletePlugin.ops).1.queue).1,
         context := (runOps (mkRunState ghostDeletePlugin ghostBreeze)
            ghostDeletePlugin.ops).1.ctx.merge_changes },
        Except.error ("KeyError: " ++ k)) :=
  c10_deletion_keyerror ghostDeletePlugin ghostBreeze
    (runOps (mkRunState ghostDeletePlugin ghostBreeze) ghostDeletePlugin.ops).1
    rfl (by decide)
